import Mathlib

/-!
Verification development for the Legal-Agent repository.

The repository processes a legislative PDF into structured outputs: it cleans
the extracted text (`src/text_utils.py`), splits it into chunks, summarizes the
chunks with an external LLM (`src/summarizer.py`), caches chunk summaries in a
JSON file (`src/json_exporter.py`, `agent.py`), extracts sections
(`src/section_extractor.py`) and applies six fixed rule checks
(`src/rule_checker.py`), orchestrated by `LegislativeAgent.process_legislation`
in `agent.py`.

Text is modelled as `List Char`.  The Python regular-expression substitutions
of `clean_text` are embedded as direct scanners that implement the
leftmost, non-overlapping, greedy semantics of `re.sub` for each of the five
concrete patterns appearing in the source.  The external LLM, the PDF reader
and the file system are modelled as explicit parameters (an `Env` of response
oracles and a `FileData` value for the cache file); JSON values produced by
`json.loads` are modelled by the inductive type `JValue`.
-/

namespace LegalAgent

/-- Python `\s` for `str` patterns: ASCII whitespace together with the
Unicode whitespace characters recognised by CPython's `sre` engine. -/
def pyIsSpace (c : Char) : Bool :=
  let n := c.toNat
  (9 ≤ n && n ≤ 13) || n = 32 || (28 ≤ n && n ≤ 31) || n = 0x85 || n = 0xa0 ||
  n = 0x1680 || (0x2000 ≤ n && n ≤ 0x200a) || n = 0x2028 || n = 0x2029 ||
  n = 0x202f || n = 0x205f || n = 0x3000

/-- Python `\d`.  The source's patterns are applied to text whose digits are
the ASCII decimal digits (Python's `\d` additionally matches other Unicode
decimal digits; the development models the decimal digits `0`-`9`). -/
def pyIsDigit (c : Char) : Bool :=
  '0' ≤ c && c ≤ '9'

/-- Whether `\d+` can match at the head of the list. -/
def startsDigit : List Char → Bool
  | d :: _ => pyIsDigit d
  | [] => false

/-- Greedy match of `Page\s*\d+\s*of\s*\d+` (the first substitution of
`clean_text`, `src/text_utils.py` line 30) at the head of the list.  Returns
the remainder after the match.  Since the character classes `\s` and `\d` and
the literals are pairwise disjoint, the greedy scan needs no backtracking and
coincides with `re` semantics. -/
def matchPageAt : List Char → Option (List Char)
  | 'P' :: 'a' :: 'g' :: 'e' :: r0 =>
    let r1 := r0.dropWhile pyIsSpace
    if startsDigit r1 then
      match (r1.dropWhile pyIsDigit).dropWhile pyIsSpace with
      | 'o' :: 'f' :: r3 =>
        let r4 := r3.dropWhile pyIsSpace
        if startsDigit r4 then some (r4.dropWhile pyIsDigit) else none
      | _ => none
    else none
  | _ => none

/-- `re.sub(r"Page\s*\d+\s*of\s*\d+", "", text)`: scan left to right, delete
each non-overlapping match, resume after the match.  The fuel argument is
instantiated with the length of the list; every step consumes at least one
character, so the fuel never runs out. -/
def rmPageMarkersAux : Nat → List Char → List Char
  | 0, l => l
  | _ + 1, [] => []
  | n + 1, c :: cs =>
    match matchPageAt (c :: cs) with
    | some rest => rmPageMarkersAux n rest
    | none => c :: rmPageMarkersAux n cs

def rmPageMarkers (l : List Char) : List Char :=
  rmPageMarkersAux l.length l

/-- `re.sub(r"\n{2,}", "\n", text)` (`src/text_utils.py` line 33): every
maximal run of two or more newlines becomes a single newline; a single
newline is left alone, so every maximal newline run collapses to one. -/
def collapseNewlines : List Char → List Char
  | [] => []
  | [c] => [c]
  | c :: d :: rest =>
    if c = '\n' && d = '\n' then collapseNewlines (d :: rest)
    else c :: collapseNewlines (d :: rest)

/-- The trailing `\s*$` part of the digit-line pattern in MULTILINE mode:
consume the longest whitespace run after which the position is the end of the
string or faces a newline (`$` in MULTILINE mode also matches before `\n`).
Returns the consumed run and the remainder. -/
def trailingWs : List Char → Option (List Char × List Char)
  | [] => some ([], [])
  | c :: cs =>
    if pyIsSpace c then
      match trailingWs cs with
      | some (tk, r) => some (c :: tk, r)
      | none => if c = '\n' then some ([], c :: cs) else none
    else none

/-- Match of `^\s*\d+\s*$` (MULTILINE) at a beginning-of-line position
(`src/text_utils.py` line 36).  Returns whether the last consumed character is
a newline (which makes the position after the match a beginning of line
again) and the remainder after the match. -/
def matchDigitLineAt (l : List Char) : Option (Bool × List Char) :=
  let r1 := l.dropWhile pyIsSpace
  if startsDigit r1 then
    match trailingWs (r1.dropWhile pyIsDigit) with
    | some (tk, rest) => some (tk.getLast? == some '\n', rest)
    | none => none
  else none

/-- `re.sub(r"^\s*\d+\s*$", "", text, flags=re.MULTILINE)`: the pattern is
anchored, so a match is only attempted at the start of the string and right
after a newline.  The Boolean argument records whether the current position is
such a beginning of line. -/
def rmDigitLinesAux : Nat → Bool → List Char → List Char
  | 0, _, l => l
  | _ + 1, _, [] => []
  | n + 1, atBol, c :: cs =>
    if atBol then
      match matchDigitLineAt (c :: cs) with
      | some (bol, rest) => rmDigitLinesAux n bol rest
      | none => c :: rmDigitLinesAux n (c = '\n') cs
    else c :: rmDigitLinesAux n (c = '\n') cs

def rmDigitLines (l : List Char) : List Char :=
  rmDigitLinesAux l.length true l

/-- `re.sub(r"[^\x00-\x7F]+", " ", text)` (`src/text_utils.py` line 39):
every maximal run of non-ASCII characters becomes a single space. -/
def asciify : List Char → List Char
  | [] => []
  | [c] => if c.toNat ≤ 127 then [c] else [' ']
  | c :: d :: rest =>
    if c.toNat ≤ 127 then c :: asciify (d :: rest)
    else if d.toNat ≤ 127 then ' ' :: asciify (d :: rest)
    else asciify (d :: rest)

/-- `re.sub(r"\s+", " ", text)` (`src/text_utils.py` line 42): every maximal
whitespace run becomes a single space. -/
def collapseWS : List Char → List Char
  | [] => []
  | [c] => if pyIsSpace c then [' '] else [c]
  | c :: d :: rest =>
    if !pyIsSpace c then c :: collapseWS (d :: rest)
    else if !pyIsSpace d then ' ' :: collapseWS (d :: rest)
    else collapseWS (d :: rest)

/-- Remove a trailing whitespace run (the right half of Python `str.strip`). -/
def dropTrailWS : List Char → List Char
  | [] => []
  | c :: cs =>
    let r := dropTrailWS cs
    if r.isEmpty && pyIsSpace c then [] else c :: r

/-- Python `text.strip()`: remove leading and trailing whitespace. -/
def pyStrip (l : List Char) : List Char :=
  dropTrailWS (l.dropWhile pyIsSpace)

/-- `clean_text` from `src/text_utils.py` lines 26-46: the five regex
substitutions followed by `strip`, in source order. -/
def clean_text (t : List Char) : List Char :=
  pyStrip (collapseWS (asciify (rmDigitLines (collapseNewlines (rmPageMarkers t)))))

/-- `chunk_text` from `src/text_utils.py` lines 48-53:
`[text[i:i+chunk_size] for i in range(0, len(text), chunk_size)]`.
Each step emits the slice `text[i:i+size]` and advances by `size`; the fuel is
instantiated with the length of the text, which suffices for every positive
`size` (Python's `range` rejects a zero step, so the source function is only
defined for `size > 0`). -/
def chunk_textAux : Nat → List Char → Nat → List (List Char)
  | 0, _, _ => []
  | _ + 1, [], _ => []
  | n + 1, text, size => text.take size :: chunk_textAux n (text.drop size) size

def chunk_text (text : List Char) (size : Nat) : List (List Char) :=
  chunk_textAux text.length text size

/-- The lengths of the chunks of a text of length `len`, as a pure arithmetic
recursion mirroring `chunk_textAux`. -/
def lenChunksAux : Nat → Nat → Nat → List Nat
  | 0, _, _ => []
  | _ + 1, 0, _ => []
  | n + 1, len, size => min size len :: lenChunksAux n (len - size) size

def lenChunks (len size : Nat) : List Nat :=
  lenChunksAux len len size

/-! ## JSON values

`json.loads` produces dictionaries, lists, strings, numbers, booleans and
null; these are modelled by `JValue`.  Objects are association lists; the
dictionaries produced by `json.loads` have pairwise distinct keys, so lookup
by first occurrence models Python dictionary access. -/

inductive JValue where
  | str (s : String)
  | num (n : Int)
  | bool (b : Bool)
  | null
  | arr (xs : List JValue)
  | obj (kvs : List (String × JValue))

/-- Python dictionary lookup `data[k]` / membership `k in data`. -/
def jlookup (k : String) : List (String × JValue) → Option JValue
  | [] => none
  | (k', v) :: rest => if k' = k then some v else jlookup k rest

def jIsObj : JValue → Bool
  | .obj _ => true
  | _ => false

def jIsArr : JValue → Bool
  | .arr _ => true
  | _ => false

/-- `k in data and data[k]` for an object value. -/
def objHasKey (v : JValue) (k : String) : Bool :=
  match v with
  | .obj kvs => (jlookup k kvs).isSome
  | _ => false

/-! ## Rule checker (`src/rule_checker.py`) -/

/-- `LEGAL_DOCUMENT_RULES`, `src/rule_checker.py` lines 16-23. -/
def LEGAL_DOCUMENT_RULES : List String :=
  [ "Act must define key terms",
    "Act must specify eligibility criteria",
    "Act must specify what the authority (government) must do",
    "Act must list penalties or enforcement methods",
    "Act must explain how to calculate payments",
    "Act must require records or reporting" ]

/-- `RuleChecker._create_default_rule_checks`, `src/rule_checker.py`
lines 100-110: one failed record per fixed rule. -/
def create_default_rule_checks : List JValue :=
  LEGAL_DOCUMENT_RULES.map fun rule =>
    JValue.obj [ ("rule", .str rule), ("status", .str "fail"),
                 ("evidence", .str "Could not process"), ("confidence", .num 0) ]

/-- `RuleChecker.apply_rule_checks`, `src/rule_checker.py` lines 85-98, after
the model call: the response text (with a fenced code block stripped) is fed
to `json.loads`; the argument is the outcome of that parse, `none` standing
for a `JSONDecodeError`.  A parsed list is returned as is; a parse failure or
a non-list value yields the default rule checks. -/
def apply_rule_checks (parsed : Option JValue) : List JValue :=
  match parsed with
  | some (.arr xs) => xs
  | some _ => create_default_rule_checks
  | none => create_default_rule_checks

/-! ## Section extractor (`src/section_extractor.py`) -/

/-- The fallback dictionary of `SectionExtractor.extract_sections`,
`src/section_extractor.py` lines 71-79. -/
def default_sections : JValue :=
  .obj [ ("definitions", .str ""), ("obligations", .str ""),
         ("responsibilities", .str ""), ("eligibility", .str ""),
         ("payments", .str ""), ("penalties", .str ""),
         ("record_keeping", .str "") ]

/-- `SectionExtractor.extract_sections`, `src/section_extractor.py`
lines 63-79, after the model call: on a successful `json.loads` the parsed
value is returned unchanged (no validation of its shape); on a
`JSONDecodeError` (modelled by `none`) the fallback dictionary is returned. -/
def extract_sections (parsed : Option JValue) : JValue :=
  match parsed with
  | some v => v
  | none => default_sections

/-- A response following exactly the JSON format printed in the extractor's
prompt (`src/section_extractor.py` lines 37-46), whose last key is spelled
`record_keepin`. -/
def prompt_format_response : JValue :=
  .obj [ ("definitions", .str "..."), ("obligations", .str "..."),
         ("responsibilities", .str "..."), ("eligibility", .str "..."),
         ("payments", .str "..."), ("penalties", .str "..."),
         ("record_keepin", .str "...") ]

/-! ## Chunk-summary cache (`src/json_exporter.py`, `agent.py`) -/

/-- The observable content of the cache file: missing, unparsable, or a
parsed JSON value (`json.dump`/`json.load` round-trip faithfully, so a file
written by the exporter is modelled by the value it holds). -/
inductive FileData where
  | missing
  | invalid
  | json (v : JValue)

/-- `JSONExporter.export_chunk_summaries`, `src/json_exporter.py` lines
30-39: write `{"chunk_summaries": summaries}`, fully overwriting the file. -/
def export_chunk_summaries (summaries : List String) : FileData :=
  .json (.obj [("chunk_summaries", .arr (summaries.map .str))])

/-- `LegislativeAgent.load_existing_chunk_summaries`, `agent.py` lines 80-92:
if the file exists, parses as JSON and the parsed value is a dictionary
containing the key `"chunk_summaries"`, return that field; in every other
case (missing file, unreadable or unparsable content, key absent, or a
non-dictionary value, whose `in`/indexing raises a `TypeError` caught by the
`except` clause) return `None` — no exception reaches the caller. -/
def load_existing_chunk_summaries : FileData → Option JValue
  | .json (.obj kvs) => jlookup "chunk_summaries" kvs
  | _ => none

/-! ## Pipeline (`agent.py`) -/

/-- `"\n\n".join(xs)` requires every element to be a string. -/
def asStrings : List JValue → Option (List String)
  | [] => some []
  | .str s :: rest => (asStrings rest).map (s :: ·)
  | _ :: _ => none

/-- `sep.join(chunk_summaries)` as used by `Summarizer.combine_summaries`,
`src/summarizer.py` line 52; fails (Python `TypeError`) unless the value is a
list of strings. -/
def pyJoin (sep : String) (v : JValue) : Option String :=
  match v with
  | .arr xs => (asStrings xs).map (String.intercalate sep)
  | _ => none

/-- The external collaborators of one pipeline run: the LLM responses (the
chunk-summary response per chunk and the combine response per joined input
are free text already run through `response.text if response.text else ""`;
the section and rule responses are given as their `json.loads` outcome). -/
structure Env where
  summarize : List Char → String
  combineResp : String → String
  sectionsParsed : List Char → Option JValue
  rulesParsed : List Char → Option JValue

/-- The outcome of `LegislativeAgent.process_legislation`: the four fields of
the returned results dictionary, together with the state of the cache file
after the run, the argument passed to `combine_summaries`, and the list of
chunks sent to per-chunk summarization (empty when the cache was used). -/
structure RunResult where
  summary : String
  sections : JValue
  rule_checks : List JValue
  chunk_summaries : JValue
  cacheAfter : FileData
  combineArg : JValue
  summarizedChunks : List (List Char)

/-- `LegislativeAgent.process_legislation`, `agent.py` lines 94-139, starting
from the extracted raw text (PDF extraction is a black-box collaborator):
clean, chunk with the default size 6000, load the cache; on a cache hit use
the cached summaries and leave the cache file untouched, otherwise summarize
each chunk in order and export the summaries to the cache; then combine,
extract sections, apply rule checks and assemble the results.  `none` models
a run aborted by an uncaught `TypeError` from `"\n\n".join` on a cached value
that is not a list of strings. -/
def process_legislation (env : Env) (raw_text : List Char) (cache : FileData) :
    Option RunResult :=
  let cleaned := clean_text raw_text
  let chunks := chunk_text cleaned 6000
  match load_existing_chunk_summaries cache with
  | some cs =>
    match pyJoin "\n\n" cs with
    | none => none
    | some joined =>
      some { summary := env.combineResp joined
             sections := extract_sections (env.sectionsParsed cleaned)
             rule_checks := apply_rule_checks (env.rulesParsed cleaned)
             chunk_summaries := cs
             cacheAfter := cache
             combineArg := cs
             summarizedChunks := [] }
  | none =>
    let summaries := chunks.map env.summarize
    let csJ := JValue.arr (summaries.map .str)
    match pyJoin "\n\n" csJ with
    | none => none
    | some joined =>
      some { summary := env.combineResp joined
             sections := extract_sections (env.sectionsParsed cleaned)
             rule_checks := apply_rule_checks (env.rulesParsed cleaned)
             chunk_summaries := csJ
             cacheAfter := export_chunk_summaries summaries
             combineArg := csJ
             summarizedChunks := chunks }

/-- A concrete environment used by the concrete-run theorems. -/
def env0 : Env :=
  { summarize := fun _ => "s"
    combineResp := fun _ => "c"
    sectionsParsed := fun _ => none
    rulesParsed := fun _ => none }

/-- The cache file of the end-to-end scenario:
`{"chunk_summaries": ["a","b"]}`. -/
def cacheAB : FileData :=
  .json (.obj [("chunk_summaries", .arr [.str "a", .str "b"])])

/-- Containment of a pattern at the head of a list. -/
def listStartsWith : List Char → List Char → Bool
  | [], _ => true
  | _ :: _, [] => false
  | p :: ps, c :: cs => p == c && listStartsWith ps cs

/-- Containment of a pattern anywhere in a list. -/
def hasSubstr (pat : List Char) : List Char → Bool
  | [] => pat.isEmpty
  | c :: cs => listStartsWith pat (c :: cs) || hasSubstr pat cs

/-- Adjacent whitespace detector: `true` when no two adjacent characters are
both whitespace. -/
def noDoubleWS : List Char → Bool
  | [] => true
  | [_] => true
  | c :: d :: rest => !(pyIsSpace c && pyIsSpace d) && noDoubleWS (d :: rest)

/-- The input of the end-to-end cleaning scenario. -/
def pageEx : List Char :=
  "Page 1 of 2\nSection 2 - Definitions: ...\n\n\nPage 2 of 2".toList

/-! ## Lemmas about `chunk_text` -/

theorem chunk_textAux_nil (n s : Nat) : chunk_textAux n [] s = [] := by
  cases n <;> rfl

theorem chunk_textAux_join (n : Nat) (t : List Char) (s : Nat) (hs : 0 < s)
    (hn : t.length ≤ n) : (chunk_textAux n t s).flatten = t := by
  induction n generalizing t with
  | zero =>
    have ht : t = [] := List.eq_nil_of_length_eq_zero (Nat.le_zero.mp hn)
    simp [ht, chunk_textAux]
  | succ n ih =>
    cases t with
    | nil => simp [chunk_textAux]
    | cons a as =>
      have hd : ((a :: as).drop s).length ≤ n := by
        rw [List.length_drop]
        simp only [List.length_cons] at hn ⊢
        omega
      simp only [chunk_textAux, List.flatten_cons, ih _ hd]
      exact List.take_append_drop s (a :: as)

theorem chunk_textAux_length_le (n : Nat) (t : List Char) (s : Nat) :
    ∀ c ∈ chunk_textAux n t s, c.length ≤ s := by
  induction n generalizing t with
  | zero => simp [chunk_textAux]
  | succ n ih =>
    cases t with
    | nil => simp [chunk_textAux]
    | cons a as =>
      intro c hc
      rcases hc with _ | ⟨_, hc⟩
      · simp [Nat.min_le_left]
      · exact ih _ c hc

theorem chunk_textAux_ne_nil (n : Nat) (t : List Char) (s : Nat) (hs : 0 < s) :
    ∀ c ∈ chunk_textAux n t s, c ≠ [] := by
  induction n generalizing t with
  | zero => simp [chunk_textAux]
  | succ n ih =>
    cases t with
    | nil => simp [chunk_textAux]
    | cons a as =>
      intro c hc
      rcases hc with _ | ⟨_, hc⟩
      · cases s with
        | zero => exact absurd hs (by omega)
        | succ s => simp [List.take_cons]
      · exact ih _ c hc

theorem chunk_textAux_full (n : Nat) (t : List Char) (s : Nat) (hs : 0 < s)
    (hn : t.length ≤ n) :
    ∀ i, (h : i + 1 < (chunk_textAux n t s).length) →
      ((chunk_textAux n t s).get ⟨i, Nat.lt_of_succ_lt h⟩).length = s := by
  induction n generalizing t with
  | zero =>
    have ht : t = [] := List.eq_nil_of_length_eq_zero (Nat.le_zero.mp hn)
    intro i h
    rw [ht, chunk_textAux_nil] at h
    exact absurd h (by simp)
  | succ n ih =>
    cases t with
    | nil =>
      intro i h
      rw [chunk_textAux_nil] at h
      exact absurd h (by simp)
    | cons a as =>
      intro i h
      have hd : ((a :: as).drop s).length ≤ n := by
        rw [List.length_drop]
        simp only [List.length_cons] at hn ⊢
        omega
      cases i with
      | zero =>
        have hne : chunk_textAux n ((a :: as).drop s) s ≠ [] := by
          intro hnil
          simp only [chunk_textAux, hnil, List.length_cons, List.length_nil] at h
          omega
        have hdrop : (a :: as).drop s ≠ [] := by
          intro hnil
          exact hne (hnil ▸ chunk_textAux_nil n s)
        have hlen : s < (a :: as).length := by simpa using hdrop
        simp only [List.length_cons] at hlen
        show ((a :: as).take s).length = s
        rw [List.length_take, List.length_cons]
        omega
      | succ i =>
        have h' : i + 1 < (chunk_textAux n ((a :: as).drop s) s).length := by
          simpa [chunk_textAux] using h
        simpa [chunk_textAux] using ih _ hd i h'

theorem chunk_textAux_map_length (n : Nat) (t : List Char) (s : Nat) :
    (chunk_textAux n t s).map List.length = lenChunksAux n t.length s := by
  induction n generalizing t with
  | zero => rfl
  | succ n ih =>
    cases t with
    | nil => rfl
    | cons a as =>
      simp only [chunk_textAux, List.map_cons, List.length_take, ih, List.length_drop]
      rfl

/-- C1: for every text and every chunk size greater than 0, `chunk_text`
partitions the text: the concatenation of the chunks is the text, every chunk
has length at most `size` and is nonempty, every chunk but the last has
length exactly `size`, the empty text yields no chunks, and a 15000-character
text with size 6000 yields chunks of lengths 6000, 6000, 3000. -/
theorem chunk_text_partitions (text : List Char) (size : Nat) (hs : 0 < size) :
    (chunk_text text size).flatten = text ∧
    (∀ c ∈ chunk_text text size, c.length ≤ size ∧ c ≠ []) ∧
    (∀ i, (h : i + 1 < (chunk_text text size).length) →
      ((chunk_text text size).get ⟨i, Nat.lt_of_succ_lt h⟩).length = size) ∧
    (text = [] → chunk_text text size = []) ∧
    (chunk_text (List.replicate 15000 'a') 6000).map List.length = [6000, 6000, 3000] := by
  refine ⟨chunk_textAux_join _ _ _ hs le_rfl,
    fun c hc => ⟨chunk_textAux_length_le _ _ _ c hc, chunk_textAux_ne_nil _ _ _ hs c hc⟩,
    chunk_textAux_full _ _ _ hs le_rfl, fun ht => by simp [ht, chunk_text, chunk_textAux], ?_⟩
  rw [chunk_text, chunk_textAux_map_length, List.length_replicate]
  decide

theorem chunk_text_partitions_witness :
    0 < 2 ∧
    ((chunk_text "abcde".toList 2).flatten = "abcde".toList ∧
    (∀ c ∈ chunk_text "abcde".toList 2, c.length ≤ 2 ∧ c ≠ []) ∧
    (∀ i, (h : i + 1 < (chunk_text "abcde".toList 2).length) →
      ((chunk_text "abcde".toList 2).get ⟨i, Nat.lt_of_succ_lt h⟩).length = 2) ∧
    ("abcde".toList = [] → chunk_text "abcde".toList 2 = []) ∧
    (chunk_text (List.replicate 15000 'a') 6000).map List.length = [6000, 6000, 3000]) :=
  ⟨by decide, chunk_text_partitions "abcde".toList 2 (by decide)⟩

/-! ## Rule checker and section extractor -/

/-- C3: for every model response that cannot be parsed as JSON (`none`) and
every response whose parsed top-level value is not a list, `apply_rule_checks`
returns exactly six records carrying the six fixed rule strings in their
defined order, each with status "fail", confidence 0 and the fixed evidence
placeholder "Could not process". -/
theorem apply_rule_checks_fallback (p : Option JValue)
    (h : ∀ xs, p ≠ some (.arr xs)) :
    apply_rule_checks p =
      [ .obj [("rule", .str "Act must define key terms"), ("status", .str "fail"),
              ("evidence", .str "Could not process"), ("confidence", .num 0)],
        .obj [("rule", .str "Act must specify eligibility criteria"), ("status", .str "fail"),
              ("evidence", .str "Could not process"), ("confidence", .num 0)],
        .obj [("rule", .str "Act must specify what the authority (government) must do"),
              ("status", .str "fail"),
              ("evidence", .str "Could not process"), ("confidence", .num 0)],
        .obj [("rule", .str "Act must list penalties or enforcement methods"), ("status", .str "fail"),
              ("evidence", .str "Could not process"), ("confidence", .num 0)],
        .obj [("rule", .str "Act must explain how to calculate payments"), ("status", .str "fail"),
              ("evidence", .str "Could not process"), ("confidence", .num 0)],
        .obj [("rule", .str "Act must require records or reporting"), ("status", .str "fail"),
              ("evidence", .str "Could not process"), ("confidence", .num 0)] ] := by
  match p with
  | none => rfl
  | some (.str s) => rfl
  | some (.num n) => rfl
  | some (.bool b) => rfl
  | some .null => rfl
  | some (.obj kvs) => rfl
  | some (.arr xs) => exact absurd rfl (h xs)

theorem apply_rule_checks_fallback_witness :
    (∀ xs, (some JValue.null : Option JValue) ≠ some (.arr xs)) ∧
    apply_rule_checks (some .null) =
      [ .obj [("rule", .str "Act must define key terms"), ("status", .str "fail"),
              ("evidence", .str "Could not process"), ("confidence", .num 0)],
        .obj [("rule", .str "Act must specify eligibility criteria"), ("status", .str "fail"),
              ("evidence", .str "Could not process"), ("confidence", .num 0)],
        .obj [("rule", .str "Act must specify what the authority (government) must do"),
              ("status", .str "fail"),
              ("evidence", .str "Could not process"), ("confidence", .num 0)],
        .obj [("rule", .str "Act must list penalties or enforcement methods"), ("status", .str "fail"),
              ("evidence", .str "Could not process"), ("confidence", .num 0)],
        .obj [("rule", .str "Act must explain how to calculate payments"), ("status", .str "fail"),
              ("evidence", .str "Could not process"), ("confidence", .num 0)],
        .obj [("rule", .str "Act must require records or reporting"), ("status", .str "fail"),
              ("evidence", .str "Could not process"), ("confidence", .num 0)] ] :=
  ⟨(fun xs h => by cases h), apply_rule_checks_fallback (some .null) (fun xs h => by cases h)⟩

/-- C4: for every model response that is not valid JSON, `extract_sections`
returns the mapping with exactly the seven fixed keys, each mapped to the
empty string. -/
theorem extract_sections_fallback :
    extract_sections none =
      .obj [ ("definitions", .str ""), ("obligations", .str ""),
             ("responsibilities", .str ""), ("eligibility", .str ""),
             ("payments", .str ""), ("penalties", .str ""),
             ("record_keeping", .str "") ] := rfl

/-- C10: a successfully parsed response is returned unvalidated, and a
response following exactly the format requested by the extractor's prompt
(whose last key reads `record_keepin`) yields a mapping that contains the key
`record_keepin` and not the key `record_keeping`. -/
theorem extract_sections_no_validation :
    (∀ v, extract_sections (some v) = v) ∧
    objHasKey (extract_sections (some prompt_format_response)) "record_keepin" = true ∧
    objHasKey (extract_sections (some prompt_format_response)) "record_keeping" = false :=
  ⟨fun _ => rfl, by decide, by decide⟩

/-! ## Chunk-summary cache -/

/-- C6: loading the chunk-summary cache returns the stored list when the file
parses as an object with the `chunk_summaries` field, and returns `none`
(never an exception) when the path does not exist, the content is not valid
JSON, the parsed object lacks the field, or the parsed value is not an
object. -/
theorem load_chunk_summaries_spec (xs : List JValue)
    (kvs : List (String × JValue)) (v : JValue)
    (hk : jlookup "chunk_summaries" kvs = none) (hv : jIsObj v = false) :
    load_existing_chunk_summaries (.json (.obj [("chunk_summaries", .arr xs)])) =
      some (.arr xs) ∧
    load_existing_chunk_summaries .missing = none ∧
    load_existing_chunk_summaries .invalid = none ∧
    load_existing_chunk_summaries (.json (.obj kvs)) = none ∧
    load_existing_chunk_summaries (.json v) = none := by
  refine ⟨rfl, rfl, rfl, hk, ?_⟩
  match v with
  | .str s => rfl
  | .num n => rfl
  | .bool b => rfl
  | .null => rfl
  | .arr ys => rfl
  | .obj kvs' => exact absurd hv (by simp [jIsObj])

theorem load_chunk_summaries_spec_witness :
    jlookup "chunk_summaries" [("other", JValue.null)] = none ∧
    jIsObj (.arr []) = false ∧
    (load_existing_chunk_summaries
        (.json (.obj [("chunk_summaries", .arr [JValue.str "a"])])) =
      some (.arr [JValue.str "a"]) ∧
    load_existing_chunk_summaries .missing = none ∧
    load_existing_chunk_summaries .invalid = none ∧
    load_existing_chunk_summaries (.json (.obj [("other", JValue.null)])) = none ∧
    load_existing_chunk_summaries (.json (.arr [])) = none) :=
  ⟨rfl, rfl, load_chunk_summaries_spec [.str "a"] [("other", .null)] (.arr []) rfl rfl⟩

/-- C7: cache round-trip — loading immediately after saving any sequence of
strings, including the empty sequence, returns exactly that sequence. -/
theorem cache_round_trip :
    (∀ seq : List String,
      load_existing_chunk_summaries (export_chunk_summaries seq) =
        some (.arr (seq.map .str))) ∧
    load_existing_chunk_summaries (export_chunk_summaries []) = some (.arr []) :=
  ⟨fun _ => rfl, rfl⟩

/-! ## Pipeline -/

theorem asStrings_map_str (ss : List String) : asStrings (ss.map .str) = some ss := by
  induction ss with
  | nil => rfl
  | cons s rest ih => simp [asStrings, ih]

/-- C5: when the cache file holds `{"chunk_summaries": ["a","b"]}`, the
pipeline performs no per-chunk summarization, leaves the cache file
untouched, and passes exactly `["a","b"]` to summary combination (joined as
"a\n\nb"). -/
theorem pipeline_uses_cached_summaries (env : Env) (raw : List Char) :
    ∃ r, process_legislation env raw cacheAB = some r ∧
      r.summarizedChunks = [] ∧
      r.cacheAfter = cacheAB ∧
      r.combineArg = .arr [.str "a", .str "b"] ∧
      r.chunk_summaries = .arr [.str "a", .str "b"] ∧
      r.summary = env.combineResp "a\n\nb" := by
  refine ⟨_, rfl, rfl, rfl, rfl, rfl, ?_⟩
  exact congrArg env.combineResp (by decide)

/-- C9 (amended): in every pipeline run that starts with a cache miss, the
chunk-summary sequence fed to combination and returned in the result has the
same cardinality and order as the chunk sequence of the current document,
with the summary at position `i` produced from the chunk at position `i`. -/
theorem fresh_run_summary_alignment (env : Env) (raw : List Char)
    (cache : FileData) (h : load_existing_chunk_summaries cache = none) :
    ∃ r, process_legislation env raw cache = some r ∧
      r.summarizedChunks = chunk_text (clean_text raw) 6000 ∧
      r.chunk_summaries =
        .arr ((chunk_text (clean_text raw) 6000).map fun c => .str (env.summarize c)) ∧
      r.combineArg = r.chunk_summaries ∧
      (∀ xs, r.chunk_summaries = .arr xs →
        xs.length = (chunk_text (clean_text raw) 6000).length) := by
  unfold process_legislation
  rw [h]
  simp only [pyJoin, asStrings_map_str, Option.map_some]
  refine ⟨_, rfl, rfl, by simp, rfl, ?_⟩
  intro xs hxs
  injection hxs with hxs
  simp [← hxs]

theorem fresh_run_summary_alignment_witness :
    load_existing_chunk_summaries .missing = none ∧
    (∃ r, process_legislation env0 "hi".toList .missing = some r ∧
      r.summarizedChunks = chunk_text (clean_text "hi".toList) 6000 ∧
      r.chunk_summaries =
        .arr ((chunk_text (clean_text "hi".toList) 6000).map fun c => .str (env0.summarize c)) ∧
      r.combineArg = r.chunk_summaries ∧
      (∀ xs, r.chunk_summaries = .arr xs →
        xs.length = (chunk_text (clean_text "hi".toList) 6000).length)) :=
  ⟨rfl, fresh_run_summary_alignment env0 "hi".toList .missing rfl⟩

/-- C9, counterexample to the claim as stated: with a pre-existing cache of
two summaries and a document that yields a single chunk, the run returns a
chunk-summary sequence whose cardinality differs from the current chunk
sequence. -/
theorem stale_cache_breaks_alignment :
    (process_legislation env0 "hello".toList cacheAB).map (fun r => r.chunk_summaries) =
      some (.arr [.str "a", .str "b"]) ∧
    (chunk_text (clean_text "hello".toList) 6000).length = 1 ∧
    (∀ xs, JValue.arr [.str "a", .str "b"] = .arr xs →
      xs.length ≠ (chunk_text (clean_text "hello".toList) 6000).length) := by
  refine ⟨rfl, rfl, ?_⟩
  intro xs hxs
  injection hxs with hxs
  simp [← hxs]
  decide

/-! ## Lemmas about `clean_text` -/

theorem mem_of_mem_dropWhile {p : Char → Bool} {l : List Char} {c : Char}
    (h : c ∈ l.dropWhile p) : c ∈ l :=
  (List.dropWhile_sublist p).mem h

theorem startsDigit_eq_false {l : List Char} (h : ∀ c ∈ l, pyIsDigit c = false) :
    startsDigit l = false := by
  cases l with
  | nil => rfl
  | cons d rest => simpa [startsDigit] using h d (by simp)

theorem matchPageAt_none {l : List Char} (h : ∀ c ∈ l, pyIsDigit c = false) :
    matchPageAt l = none := by
  rw [matchPageAt.eq_def]
  split
  · rename_i r0
    have hr : ∀ c ∈ r0.dropWhile pyIsSpace, pyIsDigit c = false := fun c hc =>
      h c (by simp [mem_of_mem_dropWhile hc])
    simp [startsDigit_eq_false hr]
  · rfl

theorem matchDigitLineAt_none {l : List Char} (h : ∀ c ∈ l, pyIsDigit c = false) :
    matchDigitLineAt l = none := by
  have hr : ∀ c ∈ l.dropWhile pyIsSpace, pyIsDigit c = false := fun c hc =>
    h c (mem_of_mem_dropWhile hc)
  simp [matchDigitLineAt, startsDigit_eq_false hr]

theorem rmPageMarkersAux_id (n : Nat) (l : List Char)
    (h : ∀ c ∈ l, pyIsDigit c = false) : rmPageMarkersAux n l = l := by
  induction n generalizing l with
  | zero => rfl
  | succ n ih =>
    cases l with
    | nil => rfl
    | cons c cs =>
      have h' : ∀ d ∈ cs, pyIsDigit d = false := fun d hd =>
        h d (List.mem_cons_of_mem _ hd)
      simp [rmPageMarkersAux, matchPageAt_none h, ih cs h']

theorem rmDigitLinesAux_id (n : Nat) (b : Bool) (l : List Char)
    (h : ∀ c ∈ l, pyIsDigit c = false) : rmDigitLinesAux n b l = l := by
  induction n generalizing b l with
  | zero => rfl
  | succ n ih =>
    cases l with
    | nil => rfl
    | cons c cs =>
      have h' : ∀ d ∈ cs, pyIsDigit d = false := fun d hd =>
        h d (List.mem_cons_of_mem _ hd)
      have ihh := ih (decide (c = '\n')) cs h'
      cases b
      · rw [show rmDigitLinesAux (n + 1) false (c :: cs) =
            c :: rmDigitLinesAux n (decide (c = '\n')) cs from rfl, ihh]
      · rw [show rmDigitLinesAux (n + 1) true (c :: cs) =
            (match matchDigitLineAt (c :: cs) with
             | some (bol, rest) => rmDigitLinesAux n bol rest
             | none => c :: rmDigitLinesAux n (decide (c = '\n')) cs) from rfl,
          matchDigitLineAt_none h]
        rw [show (match (none : Option (Bool × List Char)) with
             | some (bol, rest) => rmDigitLinesAux n bol rest
             | none => c :: rmDigitLinesAux n (decide (c = '\n')) cs) =
            c :: rmDigitLinesAux n (decide (c = '\n')) cs from rfl, ihh]

theorem collapseNewlines_id (l : List Char) (h : ∀ c ∈ l, c ≠ '\n') :
    collapseNewlines l = l := by
  induction l with
  | nil => rfl
  | cons c cs ih =>
    cases cs with
    | nil => rfl
    | cons d rest =>
      have hc : c ≠ '\n' := h c (by simp)
      have h' : ∀ e ∈ d :: rest, e ≠ '\n' := fun e he =>
        h e (List.mem_cons_of_mem _ he)
      simp [collapseNewlines, hc, ih h']

theorem asciify_id (l : List Char) (h : ∀ c ∈ l, c.toNat ≤ 127) : asciify l = l := by
  induction l with
  | nil => rfl
  | cons c cs ih =>
    have hc : c.toNat ≤ 127 := h c (by simp)
    have h' : ∀ d ∈ cs, d.toNat ≤ 127 := fun d hd => h d (List.mem_cons_of_mem _ hd)
    cases cs with
    | nil => simp [asciify, hc]
    | cons d rest => simp [asciify, hc, ih h']

theorem asciify_ascii (l : List Char) : ∀ c ∈ asciify l, c.toNat ≤ 127 := by
  induction l with
  | nil => simp [asciify]
  | cons c cs ih =>
    cases cs with
    | nil =>
      intro e he
      by_cases hc : c.toNat ≤ 127
      · simp only [asciify, if_pos hc, List.mem_singleton] at he
        subst he; exact hc
      · simp only [asciify, if_neg hc, List.mem_singleton] at he
        subst he; decide
    | cons d rest =>
      intro e he
      by_cases hc : c.toNat ≤ 127
      · simp only [asciify, if_pos hc] at he
        rcases List.mem_cons.mp he with rfl | he'
        · exact hc
        · exact ih e he'
      · by_cases hd : d.toNat ≤ 127
        · simp only [asciify, if_neg hc, if_pos hd] at he
          rcases List.mem_cons.mp he with rfl | he'
          · decide
          · exact ih e he'
        · simp only [asciify, if_neg hc, if_neg hd] at he
          exact ih e he

theorem collapseWS_ws (l : List Char) :
    ∀ c ∈ collapseWS l, pyIsSpace c = true → c = ' ' := by
  induction l with
  | nil => simp [collapseWS]
  | cons c cs ih =>
    cases cs with
    | nil =>
      intro e he hws
      cases hps : pyIsSpace c with
      | true =>
        simp [collapseWS, hps] at he
        exact he
      | false =>
        simp [collapseWS, hps] at he
        subst he
        rw [hws] at hps
        cases hps
    | cons d rest =>
      intro e he hws
      cases hps : pyIsSpace c with
      | false =>
        simp only [collapseWS, hps, Bool.not_false, if_true] at he
        rcases List.mem_cons.mp he with rfl | he'
        · rw [hws] at hps; cases hps
        · exact ih e he' hws
      | true =>
        cases hpd : pyIsSpace d with
        | false =>
          simp [collapseWS, hps, hpd] at he
          rcases he with rfl | he'
          · rfl
          · exact ih e he' hws
        | true =>
          simp [collapseWS, hps, hpd] at he
          exact ih e he hws

theorem collapseWS_mem (l : List Char) : ∀ c ∈ collapseWS l, c ∈ l ∨ c = ' ' := by
  induction l with
  | nil => simp [collapseWS]
  | cons c cs ih =>
    cases cs with
    | nil =>
      intro e he
      cases hps : pyIsSpace c with
      | true =>
        simp [collapseWS, hps] at he
        exact Or.inr he
      | false =>
        simp [collapseWS, hps] at he
        exact Or.inl (by simp [he])
    | cons d rest =>
      intro e he
      cases hps : pyIsSpace c with
      | false =>
        simp only [collapseWS, hps, Bool.not_false, if_true] at he
        rcases List.mem_cons.mp he with rfl | he'
        · exact Or.inl (List.mem_cons_self _ _)
        · rcases ih e he' with h' | h'
          · exact Or.inl (List.mem_cons_of_mem _ h')
          · exact Or.inr h'
      | true =>
        cases hpd : pyIsSpace d with
        | false =>
          simp [collapseWS, hps, hpd] at he
          rcases he with rfl | he'
          · exact Or.inr rfl
          · rcases ih e he' with h' | h'
            · exact Or.inl (List.mem_cons_of_mem _ h')
            · exact Or.inr h'
        | true =>
          simp [collapseWS, hps, hpd] at he
          rcases ih e he with h' | h'
          · exact Or.inl (List.mem_cons_of_mem _ h')
          · exact Or.inr h'

theorem collapseWS_head (d : Char) (rest : List Char) (hd : pyIsSpace d = false) :
    (collapseWS (d :: rest)).head? = some d := by
  cases rest with
  | nil => simp [collapseWS, hd]
  | cons e rest' => simp [collapseWS, hd]

theorem noDoubleWS_tail {c : Char} {l : List Char} (h : noDoubleWS (c :: l) = true) :
    noDoubleWS l = true := by
  cases l with
  | nil => rfl
  | cons d rest =>
    have h' := (Bool.and_eq_true _ _).mp h
    exact h'.2

theorem noDoubleWS_cons_of {c : Char} {l : List Char} (h : noDoubleWS l = true)
    (hh : ∀ d, l.head? = some d → (pyIsSpace c && pyIsSpace d) = false) :
    noDoubleWS (c :: l) = true := by
  cases l with
  | nil => rfl
  | cons d rest =>
    show (!(pyIsSpace c && pyIsSpace d) && noDoubleWS (d :: rest)) = true
    rw [hh d rfl, h]
    rfl

theorem noDoubleWS_head_elim {c d : Char} {l : List Char}
    (h : noDoubleWS (c :: l) = true) (hd : l.head? = some d) :
    (pyIsSpace c && pyIsSpace d) = false := by
  cases l with
  | nil => cases hd
  | cons e rest =>
    have he : e = d := by simpa using hd
    subst he
    have h' := (Bool.and_eq_true _ _).mp h
    have h1 := h'.1
    cases hb : (pyIsSpace c && pyIsSpace e) with
    | false => rfl
    | true => rw [hb] at h1; cases h1

theorem collapseWS_noDouble (l : List Char) : noDoubleWS (collapseWS l) = true := by
  induction l with
  | nil => rfl
  | cons c cs ih =>
    cases cs with
    | nil =>
      by_cases hc : pyIsSpace c = true <;> simp [collapseWS, hc, noDoubleWS]
    | cons d rest =>
      by_cases hc : pyIsSpace c = true
      · by_cases hd : pyIsSpace d = true
        · simpa [collapseWS, hc, hd] using ih
        · have hd' : pyIsSpace d = false := by simpa using hd
          have hh := collapseWS_head d rest hd'
          have : collapseWS (c :: d :: rest) = ' ' :: collapseWS (d :: rest) := by
            simp [collapseWS, hc, hd']
          rw [this]
          refine noDoubleWS_cons_of ih ?_
          intro e he
          rw [hh] at he
          have : d = e := by simpa using he
          subst this
          simp [hd']
      · have hc' : pyIsSpace c = false := by simpa using hc
        have : collapseWS (c :: d :: rest) = c :: collapseWS (d :: rest) := by
          simp [collapseWS, hc']
        rw [this]
        refine noDoubleWS_cons_of ih ?_
        intro e _
        simp [hc']

theorem collapseWS_id (l : List Char) (h1 : ∀ c ∈ l, pyIsSpace c = true → c = ' ')
    (h2 : noDoubleWS l = true) : collapseWS l = l := by
  induction l with
  | nil => rfl
  | cons c cs ih =>
    have h1' : ∀ d ∈ cs, pyIsSpace d = true → d = ' ' := fun d hd =>
      h1 d (List.mem_cons_of_mem _ hd)
    cases cs with
    | nil =>
      by_cases hc : pyIsSpace c = true
      · have hcs : c = ' ' := h1 c (by simp) hc
        subst hcs
        decide
      · simp [collapseWS, hc]
    | cons d rest =>
      by_cases hc : pyIsSpace c = true
      · have hcs : c = ' ' := h1 c (by simp) hc
        have hd0 : (pyIsSpace c && pyIsSpace d) = false := noDoubleWS_head_elim h2 rfl
        have hd' : pyIsSpace d = false := by
          rw [hc] at hd0; simpa using hd0
        rw [show collapseWS (c :: d :: rest) = ' ' :: collapseWS (d :: rest) by
          simp [collapseWS, hc, hd']]
        rw [ih h1' (noDoubleWS_tail h2), hcs]
      · have hc' : pyIsSpace c = false := by simpa using hc
        rw [show collapseWS (c :: d :: rest) = c :: collapseWS (d :: rest) by
          simp [collapseWS, hc']]
        rw [ih h1' (noDoubleWS_tail h2)]

theorem head?_dropWhile_false (p : Char → Bool) (l : List Char) :
    ∀ d, (l.dropWhile p).head? = some d → p d = false := by
  intro d hd
  have h := List.head?_dropWhile_not p l
  rw [hd] at h
  exact h

theorem dropWhile_head_id {p : Char → Bool} {l : List Char}
    (h : ∀ d, l.head? = some d → p d = false) : l.dropWhile p = l := by
  cases l with
  | nil => rfl
  | cons c cs =>
    rw [List.dropWhile_cons, h c rfl]
    simp

theorem noDoubleWS_dropWhile (p : Char → Bool) (l : List Char)
    (h : noDoubleWS l = true) : noDoubleWS (l.dropWhile p) = true := by
  induction l with
  | nil => rfl
  | cons c cs ih =>
    rw [List.dropWhile_cons]
    by_cases hc : p c = true
    · simpa [hc] using ih (noDoubleWS_tail h)
    · simpa [hc] using h

theorem dropTrailWS_head (l : List Char) :
    (dropTrailWS l).head? = none ∨ (dropTrailWS l).head? = l.head? := by
  cases l with
  | nil => exact Or.inl rfl
  | cons c cs =>
    by_cases hc : ((dropTrailWS cs).isEmpty && pyIsSpace c) = true
    · left; simp [dropTrailWS, hc]
    · right; simp [dropTrailWS, hc]

theorem dropTrailWS_mem (l : List Char) : ∀ c ∈ dropTrailWS l, c ∈ l := by
  induction l with
  | nil => simp [dropTrailWS]
  | cons c cs ih =>
    intro e he
    by_cases hc : ((dropTrailWS cs).isEmpty && pyIsSpace c) = true
    · simp [dropTrailWS, hc] at he
    · simp only [dropTrailWS, hc, if_false, if_neg] at he
      rcases List.mem_cons.mp he with rfl | he'
      · exact List.mem_cons_self _ _
      · exact List.mem_cons_of_mem _ (ih e he')

theorem noDoubleWS_dropTrailWS (l : List Char) (h : noDoubleWS l = true) :
    noDoubleWS (dropTrailWS l) = true := by
  induction l with
  | nil => rfl
  | cons c cs ih =>
    by_cases hc : ((dropTrailWS cs).isEmpty && pyIsSpace c) = true
    · simp [dropTrailWS, hc, noDoubleWS]
    · rw [show dropTrailWS (c :: cs) = c :: dropTrailWS cs by simp [dropTrailWS, hc]]
      refine noDoubleWS_cons_of (ih (noDoubleWS_tail h)) ?_
      intro d hd
      rcases dropTrailWS_head cs with h0 | h0
      · rw [h0] at hd; cases hd
      · rw [h0] at hd
        exact noDoubleWS_head_elim h hd

theorem dropTrailWS_last (l : List Char) :
    ((dropTrailWS l).getLast?.all fun c => !pyIsSpace c) = true := by
  induction l with
  | nil => rfl
  | cons c cs ih =>
    by_cases hc : ((dropTrailWS cs).isEmpty && pyIsSpace c) = true
    · simp [dropTrailWS, hc]
    · rw [show dropTrailWS (c :: cs) = c :: dropTrailWS cs by simp [dropTrailWS, hc]]
      cases hr : dropTrailWS cs with
      | nil =>
        have hcw : pyIsSpace c = false := by
          rw [hr] at hc
          simpa using hc
        simp [hcw]
      | cons x xs =>
        rw [List.getLast?_cons_cons]
        rw [hr] at ih
        exact ih

theorem dropTrailWS_id (l : List Char)
    (h : (l.getLast?.all fun c => !pyIsSpace c) = true) : dropTrailWS l = l := by
  induction l with
  | nil => rfl
  | cons c cs ih =>
    cases cs with
    | nil =>
      have hcw : pyIsSpace c = false := by simpa using h
      simp [dropTrailWS, hcw]
    | cons d rest =>
      have h' : ((d :: rest).getLast?.all fun c => !pyIsSpace c) = true := by
        rwa [List.getLast?_cons_cons] at h
      have hr : dropTrailWS (d :: rest) = d :: rest := ih h'
      have heq : dropTrailWS (c :: d :: rest) =
          (if ((dropTrailWS (d :: rest)).isEmpty && pyIsSpace c) = true then []
           else c :: dropTrailWS (d :: rest)) := rfl
      rw [heq, hr]
      simp

theorem pyStrip_mem (l : List Char) : ∀ c ∈ pyStrip l, c ∈ l := fun c hc =>
  mem_of_mem_dropWhile (dropTrailWS_mem _ c hc)

theorem pyStrip_noDouble (l : List Char) (h : noDoubleWS l = true) :
    noDoubleWS (pyStrip l) = true :=
  noDoubleWS_dropTrailWS _ (noDoubleWS_dropWhile _ _ h)

theorem pyStrip_head (l : List Char) :
    ((pyStrip l).head?.all fun c => !pyIsSpace c) = true := by
  rcases dropTrailWS_head (l.dropWhile pyIsSpace) with h | h
  · rw [pyStrip, h]; rfl
  · rw [pyStrip, h]
    cases hx : (l.dropWhile pyIsSpace).head? with
    | none => rfl
    | some d =>
      have := head?_dropWhile_false pyIsSpace l d hx
      simp [this]

theorem pyStrip_last (l : List Char) :
    ((pyStrip l).getLast?.all fun c => !pyIsSpace c) = true :=
  dropTrailWS_last _

theorem pyStrip_id (l : List Char)
    (hh : (l.head?.all fun c => !pyIsSpace c) = true)
    (hl : (l.getLast?.all fun c => !pyIsSpace c) = true) : pyStrip l = l := by
  have h1 : l.dropWhile pyIsSpace = l := dropWhile_head_id fun d hd => by
    rw [hd] at hh
    simpa using hh
  rw [pyStrip, h1, dropTrailWS_id l hl]

theorem clean_text_ascii (t : List Char) : ∀ c ∈ clean_text t, c.toNat ≤ 127 := by
  intro c hc
  have h1 := pyStrip_mem _ c hc
  rcases collapseWS_mem _ c h1 with h2 | h2
  · exact asciify_ascii _ c h2
  · subst h2; decide

theorem clean_text_ws (t : List Char) :
    ∀ c ∈ clean_text t, pyIsSpace c = true → c = ' ' :=
  fun c hc hws => collapseWS_ws _ c (pyStrip_mem _ c hc) hws

theorem clean_text_noDouble (t : List Char) : noDoubleWS (clean_text t) = true :=
  pyStrip_noDouble _ (collapseWS_noDouble _)

theorem clean_text_head (t : List Char) :
    ((clean_text t).head?.all fun c => !pyIsSpace c) = true :=
  pyStrip_head _

theorem clean_text_last (t : List Char) :
    ((clean_text t).getLast?.all fun c => !pyIsSpace c) = true :=
  pyStrip_last _

/-- C2 (amended): `clean_text` is idempotent on every input whose cleaned
form contains no decimal digit (digits are what both digit-dependent
substitutions — the Page-marker removal and the digit-line removal — require
in order to fire on the already-normalized output of a first cleaning). -/
theorem clean_text_idempotent_on_digit_free (t : List Char)
    (h : ((clean_text t).all fun c => !pyIsDigit c) = true) :
    clean_text (clean_text t) = clean_text t := by
  have hd : ∀ c ∈ clean_text t, pyIsDigit c = false := by
    intro c hc
    simpa using List.all_eq_true.mp h c hc
  have hnl : ∀ c ∈ clean_text t, c ≠ '\n' := by
    intro c hc hne
    subst hne
    exact absurd (clean_text_ws t '\n' hc (by decide)) (by decide)
  show pyStrip (collapseWS (asciify (rmDigitLines (collapseNewlines
    (rmPageMarkers (clean_text t)))))) = clean_text t
  rw [rmPageMarkers, rmPageMarkersAux_id _ _ hd]
  rw [collapseNewlines_id _ hnl]
  rw [rmDigitLines, rmDigitLinesAux_id _ _ _ hd]
  rw [asciify_id _ (clean_text_ascii t)]
  rw [collapseWS_id _ (clean_text_ws t) (clean_text_noDouble t)]
  exact pyStrip_id _ (clean_text_head t) (clean_text_last t)

theorem clean_text_idempotent_on_digit_free_witness :
    ((clean_text "hello world".toList).all fun c => !pyIsDigit c) = true ∧
    clean_text (clean_text "hello world".toList) = clean_text "hello world".toList :=
  ⟨by decide, clean_text_idempotent_on_digit_free _ (by decide)⟩

/-- C2, counterexample to the claim as stated: cleaning `"é123"` yields
`"123"` (the leading non-ASCII character becomes a space, which is then
stripped), and cleaning `"123"` again removes it entirely as a digit-only
line, so `clean_text` is not idempotent. -/
theorem clean_text_not_idempotent :
    clean_text (clean_text "é123".toList) ≠ clean_text "é123".toList := by decide

/-- C8: `clean_text` is exactly the source's six normalization stages in
order (Page-marker removal, newline collapsing, digit-line removal,
non-ASCII replacement, whitespace collapsing, strip); its output is pure
ASCII whose only whitespace is single non-adjacent spaces with no leading or
trailing whitespace; and the end-to-end scenario input keeps no "Page"
marker and no consecutive newlines. -/
theorem clean_text_spec :
    (∀ t, clean_text t =
      pyStrip (collapseWS (asciify (rmDigitLines (collapseNewlines (rmPageMarkers t)))))) ∧
    (∀ t, ((clean_text t).all fun c => c.toNat ≤ 127 && (!pyIsSpace c || c == ' ')) = true) ∧
    (∀ t, noDoubleWS (clean_text t) = true) ∧
    (∀ t, ((clean_text t).head?.all fun c => !pyIsSpace c) = true) ∧
    (∀ t, ((clean_text t).getLast?.all fun c => !pyIsSpace c) = true) ∧
    clean_text pageEx = "Section 2 - Definitions: ...".toList ∧
    hasSubstr "Page".toList (clean_text pageEx) = false ∧
    hasSubstr ['\n', '\n'] (clean_text pageEx) = false := by
  refine ⟨fun t => rfl, ?_, clean_text_noDouble, clean_text_head, clean_text_last,
    by decide, by decide, by decide⟩
  intro t
  rw [List.all_eq_true]
  intro c hc
  have h1 := clean_text_ascii t c hc
  have h2 := clean_text_ws t c hc
  simp only [Bool.and_eq_true, decide_eq_true_eq, Bool.or_eq_true]
  refine ⟨h1, ?_⟩
  by_cases hs : pyIsSpace c = true
  · right; simp [h2 hs]
  · left; simpa using hs

end LegalAgent

